import Mathlib

/-!
A shallow embedding of the tinychain consensus core: the account-balance state
machine (transfers, coinbase, leaf application, chain replay) and the block-DAG
ingestion pipeline (header and full-block verification, epoch retargeting,
store persistence, heaviest-tip selection).

Machine integers are modelled as `Nat` with explicit `2^64` / `2^256` bounds
where the source checks overflow (`bits.Add64` reports a carry exactly when the
true sum is at least `2^64`, so on in-range operands the check below is the
same predicate).  Byte strings are `List Nat`.  External collaborators that the
source calls but that are not part of this repository's core sources (SHA-256
from the standard library, the wallet's signature verifier, the merkle utility
of the `core` package, the block-header hash) are function parameters of the
model, so every theorem quantifies over them.
-/

namespace Tinychain

/-- Byte strings: lists of naturals, each conceptually below 256. -/
abbrev Bytes := List Nat

/-- The eight big-endian bytes of a 64-bit value, as written by
`binary.BigEndian.PutUint64` in `RawTransaction.Bytes` and
`RawTransaction.Envelope`. -/
def putUint64 (n : Nat) : Bytes :=
  [n / 2 ^ 56 % 256, n / 2 ^ 48 % 256, n / 2 ^ 40 % 256, n / 2 ^ 32 % 256,
   n / 2 ^ 24 % 256, n / 2 ^ 16 % 256, n / 2 ^ 8 % 256, n % 256]

/-- The canonical on-wire transaction (`RawTransaction` in the source).
`Sig` is 64 bytes, the pubkeys 65 bytes, in the source's fixed-size arrays. -/
structure RawTransaction where
  Version : Nat
  Sig : Bytes
  FromPubkey : Bytes
  ToPubkey : Bytes
  Amount : Nat
  Fee : Nat
  Nonce : Nat
deriving DecidableEq

/-- Source `RawTransaction.SizeBytes`: the size of the envelope,
1 + 65 + 65 + 8 + 8 + 8. -/
def RawTransaction.SizeBytes (_tx : RawTransaction) : Nat :=
  1 + 65 + 65 + 8 + 8 + 8

/-- Source `RawTransaction.Bytes`: version, then the signature, then the
two pubkeys, then the three big-endian 64-bit integers. -/
def RawTransaction.BytesOf (tx : RawTransaction) : Bytes :=
  [tx.Version] ++ tx.Sig ++ tx.FromPubkey ++ tx.ToPubkey ++
    putUint64 tx.Amount ++ putUint64 tx.Fee ++ putUint64 tx.Nonce

/-- Source `RawTransaction.Envelope`: as `Bytes` but without the signature. -/
def RawTransaction.Envelope (tx : RawTransaction) : Bytes :=
  [tx.Version] ++ tx.FromPubkey ++ tx.ToPubkey ++
    putUint64 tx.Amount ++ putUint64 tx.Fee ++ putUint64 tx.Nonce

/-- Source `RawTransaction.Hash`: SHA-256 applied twice to the envelope
(`h.Write(tx.Envelope()); sha256.Sum256(h.Sum(nil))`).  SHA-256 is standard
library code, kept as the parameter `sha`. -/
def RawTransaction.Hash (sha : Bytes → Bytes) (tx : RawTransaction) : Bytes :=
  sha (sha tx.Envelope)

/-- The state machine's error values (`errors.New` values in the source). -/
inductive SMError
  | unsupportedTransactionVersion
  | ErrInsufficientBalance
  | ErrToBalanceOverflow
  | ErrMinerBalanceOverflow
  | ErrAmountPlusFeeOverflow
deriving DecidableEq

/-- An updated account balance emitted by a transition (`StateLeaf`). -/
structure StateLeaf where
  PubKey : Bytes
  Balance : Nat
deriving DecidableEq

/-- The input to the state transition function (`StateMachineInput`). -/
structure StateMachineInput where
  RawTransaction : Tinychain.RawTransaction
  IsCoinbase : Bool
  MinerPubkey : Bytes

/-- The state machine: a map from pubkey to balance.  A Go map read of a
missing key yields the zero value, so the map is total with default 0. -/
structure StateMachine where
  state : Bytes → Nat

/-- Source `GetBalance`: read the map (missing keys are 0). -/
def StateMachine.GetBalance (c : StateMachine) (account : Bytes) : Nat :=
  c.state account

/-- Source `Apply`: overwrite each emitted leaf's balance in the state map,
in list order. -/
def StateMachine.Apply (c : StateMachine) (leafs : List StateLeaf) : StateMachine :=
  ⟨leafs.foldl (fun st leaf => fun k => if k = leaf.PubKey then leaf.Balance else st k) c.state⟩

/-- Source `transitionTransfer`.  The three `bits.Add64` carry checks become
`2^64 ≤ a + b`; the balance check and the three updates follow the source
order, and the leaves are emitted as `[from, to, miner]`. -/
def StateMachine.transitionTransfer (c : StateMachine) (input : StateMachineInput) :
    Except SMError (List StateLeaf) :=
  let fromBalance := c.GetBalance input.RawTransaction.FromPubkey
  let toBalance := c.GetBalance input.RawTransaction.ToPubkey
  let minerBalance := c.GetBalance input.MinerPubkey
  let amount := input.RawTransaction.Amount
  let fee := input.RawTransaction.Fee
  if 2 ^ 64 ≤ toBalance + amount then .error .ErrToBalanceOverflow
  else if 2 ^ 64 ≤ minerBalance + fee then .error .ErrMinerBalanceOverflow
  else if 2 ^ 64 ≤ amount + fee then .error .ErrAmountPlusFeeOverflow
  else if fromBalance < amount + fee then .error .ErrInsufficientBalance
  else .ok [⟨input.RawTransaction.FromPubkey, fromBalance - amount⟩,
            ⟨input.RawTransaction.ToPubkey, toBalance + amount⟩,
            ⟨input.MinerPubkey, minerBalance + fee⟩]

/-- Source `transitionCoinbase`: one overflow-checked credit of `Amount`
to the `to` account. -/
def StateMachine.transitionCoinbase (c : StateMachine) (input : StateMachineInput) :
    Except SMError (List StateLeaf) :=
  let toBalance := c.GetBalance input.RawTransaction.ToPubkey
  let amount := input.RawTransaction.Amount
  if 2 ^ 64 ≤ toBalance + amount then .error .ErrToBalanceOverflow
  else .ok [⟨input.RawTransaction.ToPubkey, toBalance + amount⟩]

/-- Source `Transition`: reject versions other than 1, then dispatch on
`IsCoinbase`. -/
def StateMachine.Transition (c : StateMachine) (input : StateMachineInput) :
    Except SMError (List StateLeaf) :=
  if input.RawTransaction.Version ≠ 1 then .error .unsupportedTransactionVersion
  else if input.IsCoinbase then c.transitionCoinbase input
  else c.transitionTransfer input

/-- One `Transition` followed by `Apply` on success, exactly as the
`RebuildState` call site uses the pair; on error the state machine is
left as it was. -/
def StateMachine.Step (c : StateMachine) (input : StateMachineInput) :
    StateMachine × Option SMError :=
  match c.Transition input with
  | .ok effects => (c.Apply effects, none)
  | .error e => (c, some e)

/-- The stored, enriched transaction (`Transaction` in the source): the raw
fields plus the hash, containing block hash and index filled in when it is
loaded from the store. -/
structure Transaction where
  Version : Nat
  Sig : Bytes
  FromPubkey : Bytes
  ToPubkey : Bytes
  Amount : Nat
  Fee : Nat
  Nonce : Nat
  Hash : Bytes
  Blockhash : Bytes
  TxIndex : Nat
deriving DecidableEq

/-- Modelled from the spec: `Transaction.ToRawTransaction` projects the stored
transaction back to its on-wire fields (the method lives outside the provided
sources; `Transaction` only adds the identity fields, so the projection drops
them). -/
def Transaction.ToRawTransaction (tx : Transaction) : RawTransaction :=
  ⟨tx.Version, tx.Sig, tx.FromPubkey, tx.ToPubkey, tx.Amount, tx.Fee, tx.Nonce⟩

/-- A row of `GetBlockTransactions`' join query over `transactions` and
`transactions_blocks` (hash, sig, pubkeys, amounts, txindex, version). -/
structure TxJoinRow where
  hash : Bytes
  sig : Bytes
  from_pubkey : Bytes
  to_pubkey : Bytes
  amount : Nat
  fee : Nat
  nonce : Nat
  txindex : Nat
  version : Nat
deriving DecidableEq

/-- The `Transaction` value `GetBlockTransactions` builds from one row
(`Blockhash` is left at its zero value, as in the source). -/
def TxJoinRow.toTransaction (r : TxJoinRow) : Transaction :=
  ⟨r.version, r.sig, r.from_pubkey, r.to_pubkey, r.amount, r.fee, r.nonce,
   r.hash, [], r.txindex⟩

/-- The zero `Transaction` that fills the preallocated buffer
(`make([]Transaction, count)`) before the rows are written into it. -/
def zeroTransaction : Transaction := ⟨0, [], [], [], 0, 0, 0, [], [], 0⟩

/-- The write of one row into the preallocated buffer: `txs[index] = tx`.
An index at or beyond `count` is an out-of-range write, which aborts the
call (modelled as `none`). -/
def writeRow (count : Nat) (acc : Option (List Transaction)) (r : TxJoinRow) :
    Option (List Transaction) :=
  acc.bind fun l => if r.txindex < count then some (l.set r.txindex r.toTransaction) else none

/-- The row-assembly loop of `GetBlockTransactions`: allocate a buffer of
`count` zero transactions and write each returned row at its `txindex`. -/
def buildTxs (count : Nat) (rows : List TxJoinRow) : Option (List Transaction) :=
  rows.foldl (writeRow count) (some (List.replicate count zeroTransaction))

/-- Source `GetBlockTransactions`, reduced to its pure content.  The rows of
the join query arrive in whatever order the backend returns them (`rows` —
the query has no ORDER BY clause); each is written at its `txindex` into a
buffer of `count` entries.  The source obtains `count` from
`select count(*) from transactions where block_hash = ?`; the `transactions`
table has no `block_hash` column (block linkage lives in
`transactions_blocks`), so the backend rejects that literal statement and
every call errors out; the model takes the count the query evidently intends,
the number of rows stored for the block, which is also what the join returns. -/
def GetBlockTransactions (rows : List TxJoinRow) : Option (List Transaction) :=
  buildTxs rows.length rows

/-- A replay failure: either the per-block transaction load failed, or a
transition failed at a block and transaction index (the source wraps the
state-machine error with `block=%x txindex=%d`). -/
inductive ReplayError
  | getTxs (blockHash : Nat)
  | transition (blockHash : Nat) (txindex : Nat) (e : SMError)
deriving DecidableEq

/-- The inner loop of `RebuildState` over one block's transactions: index 0
fixes the miner pubkey and is the coinbase; each transition's effects are
applied before the next transaction; an error aborts with the index. -/
def replayTxs (blockHash : Nat) (c : StateMachine) (minerPubkey : Bytes)
    (i : Nat) : List Transaction → Except ReplayError StateMachine
  | [] => .ok c
  | tx :: rest =>
    let minerPubkey' := if i = 0 then tx.FromPubkey else minerPubkey
    let input : StateMachineInput :=
      ⟨tx.ToRawTransaction, i = 0, minerPubkey'⟩
    match c.Transition input with
    | .error e => .error (.transition blockHash i e)
    | .ok effects => replayTxs blockHash (c.Apply effects) minerPubkey' (i + 1) rest

/-- Source `RebuildState`: walk the chain hash list in order, load each
block's transactions (`ord` gives the rows in the backend's return order) and
replay them through the state machine.  `var minerPubkey [65]byte` starts at
the zero value; it is overwritten at index 0 of every block. -/
def RebuildState (ord : Nat → List TxJoinRow) (stateMachine : StateMachine) :
    List Nat → Except ReplayError StateMachine
  | [] => .ok stateMachine
  | blockHash :: rest =>
    match GetBlockTransactions (ord blockHash) with
    | none => .error (.getTxs blockHash)
    | some txs =>
      match replayTxs blockHash stateMachine (List.replicate 65 0) 0 txs with
      | .error e => .error e
      | .ok c' => RebuildState ord c' rest

/-- The raw block: header fields (32-byte values read as big-endian naturals,
exactly as `Bytes32ToBigInt` reads them) plus the transaction body. -/
structure RawBlock where
  ParentHash : Nat
  ParentTotalWork : Nat
  Timestamp : Nat
  NumTransactions : Nat
  TransactionsMerkleRoot : Nat
  Nonce : Nat
  Graffiti : Nat
  Transactions : List RawTransaction
deriving DecidableEq

/-- The consensus configuration consumed by the DAG. -/
structure ConsensusConfig where
  EpochLengthBlocks : Nat
  TargetEpochLengthMillis : Nat
  GenesisDifficulty : Nat
  MaxBlockSizeBytes : Nat

/-- The external collaborators of the ingestion pipeline, none of which are in
the core sources: the block-header hash (SHA-256 over the serialized header),
SHA-256 itself, the wallet's `core.VerifySignature` (pubkey, signature,
message), the state machine's `VerifyTx` capability (`true` means no error),
and the merkle utility `core.ComputeMerkleHash` (its 32-byte root read as a
big-endian natural). -/
structure Ctx where
  consensus : ConsensusConfig
  blockHash : RawBlock → Nat
  sha : Bytes → Bytes
  VerifySignature : Bytes → Bytes → Bytes → Bool
  VerifyTx : RawTransaction → Bool
  ComputeMerkleHash : List Bytes → Nat

/-- Modelled from the spec: `CalculateWork(hash) = 2^256 / (hash + 1)`
(truncated); the function itself lives outside the provided sources. -/
def CalculateWork (hash : Nat) : Nat := 2 ^ 256 / (hash + 1)

/-- Modelled from the spec: `VerifyPOW(hash, difficulty)` holds iff the hash,
read as a 256-bit big-endian integer, is strictly below the difficulty. -/
def VerifyPOW (hash difficulty : Nat) : Bool := hash < difficulty

/-- Modelled from the spec: the epoch-boundary retarget
`new = prev_difficulty * actual_ms / target_ms` with integer division and
`actual_ms` clamped below by 1; the function lives outside the provided
sources, which pass it the previous epoch's start time, the block timestamp,
the previous difficulty and the two consensus parameters. -/
def RecomputeDifficulty (epochStart timestamp difficulty targetEpochLengthMillis
    _epochLengthBlocks _height : Nat) : Nat :=
  difficulty * max (timestamp - epochStart) 1 / targetEpochLengthMillis

/-- Modelled from the spec: a block's serialized size is the 176 header bytes
(32+32+8+8+32+32+32) plus its transactions' sizes; `RawBlock.SizeBytes` lives
outside the provided sources. -/
def RawBlock.SizeBytes (b : RawBlock) : Nat :=
  176 + (b.Transactions.map RawTransaction.SizeBytes).sum

/-- An epoch id.  Modelled from the spec: the source id is the decimal start
height, an underscore, and the hex start block hash — an injective encoding of
this pair, so the pair stands in for the string. -/
abbrev EpochId := Nat × Nat

/-- A row of the `blocks` table.  The `difficulty` column is only written by
the genesis insert; `IngestHeader` and `IngestBlock` leave it out of their
column lists. -/
structure BlockRow where
  hash : Nat
  parent_hash : Nat
  parent_total_work : Nat
  difficulty : Option Nat
  timestamp : Nat
  num_transactions : Nat
  transactions_merkle_root : Nat
  nonce : Nat
  graffiti : Nat
  height : Nat
  epoch : EpochId
  size_bytes : Nat
  acc_work : Nat
deriving DecidableEq

/-- A row of the `epochs` table. -/
structure EpochRow where
  id : EpochId
  start_block_hash : Nat
  start_time : Nat
  start_height : Nat
  difficulty : Nat
deriving DecidableEq

/-- A row of the `transactions` table (eight columns). -/
structure TxRow where
  hash : Bytes
  sig : Bytes
  from_pubkey : Bytes
  to_pubkey : Bytes
  amount : Nat
  fee : Nat
  nonce : Nat
  version : Nat
deriving DecidableEq

/-- A row of the `transactions_blocks` table; the primary key is the whole
triple. -/
structure TxBlockRow where
  block_hash : Nat
  transaction_hash : Bytes
  txindex : Nat
deriving DecidableEq

/-- The backing store: the four tables, each in insertion order. -/
structure Store where
  blocks : List BlockRow
  epochs : List EpochRow
  transactions : List TxRow
  transactions_blocks : List TxBlockRow
deriving DecidableEq

/-- INSERT INTO `epochs`: fails on a duplicate primary key `id`. -/
def insertEpochRow (s : Store) (e : EpochRow) : Option Store :=
  if s.epochs.any (fun x => x.id == e.id) then none
  else some { s with epochs := s.epochs ++ [e] }

/-- INSERT INTO `blocks`: fails on a duplicate primary key `hash`. -/
def insertBlockRow (s : Store) (b : BlockRow) : Option Store :=
  if s.blocks.any (fun x => x.hash == b.hash) then none
  else some { s with blocks := s.blocks ++ [b] }

/-- INSERT INTO `transactions_blocks`: fails on a duplicate of the full-triple
primary key. -/
def insertTxBlockRow (s : Store) (r : TxBlockRow) : Option Store :=
  if s.transactions_blocks.any (fun x => x == r) then none
  else some { s with transactions_blocks := s.transactions_blocks ++ [r] }

/-- INSERT INTO `transactions`: the source statement names the eight columns
of the table but binds nine values (the containing block hash is passed
between the transaction hash and the signature), so the driver rejects the
statement on every call and the enclosing store transaction rolls back. -/
def insertTransactionRow (_s : Store) (_r : TxRow) : Option Store := none

/-- Source `GetBlockByHash`: the first (only, by the primary key) block row
with the given hash. -/
def Store.getBlockByHash (s : Store) (hash : Nat) : Option BlockRow :=
  s.blocks.find? (fun b => b.hash == hash)

/-- Source `GetEpochForBlockHash`: read the block's `epoch` column, then the
epoch row with that id. -/
def Store.GetEpochForBlockHash (s : Store) (blockhash : Nat) : Option EpochRow :=
  (s.getBlockByHash blockhash).bind fun b => s.epochs.find? (fun e => e.id == b.epoch)

/-- One step of the heaviest-row scan: keep the current candidate unless the
next row's accumulated work is strictly greater, so the first-inserted row
wins ties. -/
def pickTip (acc : Option BlockRow) (b : BlockRow) : Option BlockRow :=
  match acc with
  | none => some b
  | some m => if m.acc_work < b.acc_work then some b else some m

/-- Source `GetLatestTip`:
`select hash from blocks order by acc_work desc limit 1` (the 32-byte
`acc_work` blobs compare like their big-endian values, and the scan leaves
equal keys in insertion order), then the block row for the selected hash. -/
def Store.GetLatestTip (s : Store) : Option BlockRow :=
  s.blocks.foldl pickTip none

/-- The in-memory DAG state the full-block path uses: the store, the full
tip, and whether an `OnNewFullTip` callback is registered. -/
structure BlockDAG where
  store : Store
  FullTip : BlockRow
  hasOnNewFullTip : Bool
deriving DecidableEq

/-- The distinct failures of the ingestion entry points. -/
inductive IngestError
  | unknownParent
  | numTransactionsMismatch
  | invalidSignature (i : Nat)
  | invalidTransaction (i : Nat)
  | invalidMerkleRoot
  | epochNotFound
  | invalidPOW
  | invalidParentTotalWork
  | blockTooLarge
  | insertFailed
  | headerMissing
  | noBlocksFound
deriving DecidableEq

/-- Step 4 of `IngestBlock` and `IngestBlockBody`: check each transaction's
signature over its envelope and the state machine's `VerifyTx`, reporting the
first offending index. -/
def verifyTxsLoop (ctx : Ctx) (i : Nat) : List RawTransaction → Option IngestError
  | [] => none
  | tx :: rest =>
    if ctx.VerifySignature tx.FromPubkey tx.Sig tx.Envelope then
      if ctx.VerifyTx tx then verifyTxsLoop ctx (i + 1) rest
      else some (.invalidTransaction i)
    else some (.invalidSignature i)

/-- The per-transaction insert loop inside the store transaction: insert the
`transactions_blocks` row, then — unless the transaction hash is already
stored — the `transactions` row.  Any failed insert rolls the whole store
transaction back (`none`). -/
def insertTxsLoop (ctx : Ctx) (blockhash : Nat) :
    Nat → Store → List RawTransaction → Option Store
  | _, staged, [] => some staged
  | i, staged, tx :: rest =>
    let txhash := RawTransaction.Hash ctx.sha tx
    match insertTxBlockRow staged ⟨blockhash, txhash, i⟩ with
    | none => none
    | some s1 =>
      let count := (s1.transactions.filter (fun t => t.hash == txhash)).length
      if 0 < count then insertTxsLoop ctx blockhash (i + 1) s1 rest
      else
        match insertTransactionRow s1
            ⟨txhash, tx.Sig, tx.FromPubkey, tx.ToPubkey, tx.Amount, tx.Fee, tx.Nonce, tx.Version⟩ with
        | none => none
        | some s2 => insertTxsLoop ctx blockhash (i + 1) s2 rest

/-- Step 6a, shared verbatim by `IngestHeader` and `IngestBlock`: on an epoch
boundary (`height % EpochLengthBlocks == 0`) recompute the difficulty and
insert the new epoch row — by a standalone statement, outside the store
transaction that the caller opens afterwards — otherwise look up the parent's
epoch.  Returns the epoch to verify against and the store as left behind by
the standalone insert. -/
def epochStep (ctx : Ctx) (s : Store) (raw : RawBlock) (height : Nat) :
    Except IngestError (EpochRow × Store) :=
  if height % ctx.consensus.EpochLengthBlocks = 0 then
    match s.GetEpochForBlockHash raw.ParentHash with
    | none => .error .epochNotFound
    | some prevEpoch =>
      let newDifficulty := RecomputeDifficulty prevEpoch.start_time raw.Timestamp
          prevEpoch.difficulty ctx.consensus.TargetEpochLengthMillis
          ctx.consensus.EpochLengthBlocks height
      let e : EpochRow := ⟨(height, ctx.blockHash raw), ctx.blockHash raw,
          raw.Timestamp, height, newDifficulty⟩
      match insertEpochRow s e with
      | none => .error .insertFailed
      | some s1 => .ok (e, s1)
  else
    match s.GetEpochForBlockHash raw.ParentHash with
    | none => .error .epochNotFound
    | some e => .ok (e, s)

/-- Source `IngestHeader`: parent lookup, epoch step, POW, parent-total-work
check, then the store transaction inserting the header row with
`size_bytes = 0` and `acc_work = parent.acc_work + CalculateWork(hash)`.
The headers tip is not recomputed (a TODO in the source). -/
def IngestHeader (ctx : Ctx) (dag : BlockDAG) (raw : RawBlock) :
    BlockDAG × Option IngestError :=
  match dag.store.getBlockByHash raw.ParentHash with
  | none => (dag, some .unknownParent)
  | some parentBlock =>
    let height := parentBlock.height + 1
    match epochStep ctx dag.store raw height with
    | .error e => (dag, some e)
    | .ok (epoch, store1) =>
      let blockHash := ctx.blockHash raw
      if VerifyPOW blockHash epoch.difficulty then
        if raw.ParentTotalWork ≠ parentBlock.acc_work then
          ({ dag with store := store1 }, some .invalidParentTotalWork)
        else
          let acc_work := parentBlock.acc_work + CalculateWork blockHash
          let row : BlockRow := ⟨blockHash, raw.ParentHash, raw.ParentTotalWork, none,
            raw.Timestamp, raw.NumTransactions, raw.TransactionsMerkleRoot, raw.Nonce,
            raw.Graffiti, height, epoch.id, 0, acc_work⟩
          match insertBlockRow store1 row with
          | none => ({ dag with store := store1 }, some .insertFailed)
          | some s2 => ({ dag with store := s2 }, none)
      else ({ dag with store := store1 }, some .invalidPOW)

/-- Source `IngestBlock`: parent lookup, transaction-count check, per-
transaction signature and `VerifyTx` checks, merkle-root check, epoch step
(which inserts any boundary epoch row outside the store transaction), POW,
parent-total-work check, block-size check, then one store transaction
inserting the block row and the per-transaction rows, and finally the
full-tip recomputation with the `OnNewFullTip` callback.  The middle
component of the result is the callback invocation `(new tip, previous
tip)`, if any. -/
def IngestBlock (ctx : Ctx) (dag : BlockDAG) (raw : RawBlock) :
    BlockDAG × Option (BlockRow × BlockRow) × Option IngestError :=
  match dag.store.getBlockByHash raw.ParentHash with
  | none => (dag, none, some .unknownParent)
  | some parentBlock =>
    if raw.NumTransactions ≠ raw.Transactions.length then
      (dag, none, some .numTransactionsMismatch)
    else match verifyTxsLoop ctx 0 raw.Transactions with
    | some e => (dag, none, some e)
    | none =>
      if ctx.ComputeMerkleHash (raw.Transactions.map RawTransaction.Envelope)
          ≠ raw.TransactionsMerkleRoot then
        (dag, none, some .invalidMerkleRoot)
      else
        let height := parentBlock.height + 1
        match epochStep ctx dag.store raw height with
        | .error e => (dag, none, some e)
        | .ok (epoch, store1) =>
          let blockHash := ctx.blockHash raw
          if VerifyPOW blockHash epoch.difficulty then
            if raw.ParentTotalWork ≠ parentBlock.acc_work then
              ({ dag with store := store1 }, none, some .invalidParentTotalWork)
            else if ctx.consensus.MaxBlockSizeBytes < raw.SizeBytes then
              ({ dag with store := store1 }, none, some .blockTooLarge)
            else
              let acc_work := parentBlock.acc_work + CalculateWork blockHash
              let row : BlockRow := ⟨blockHash, raw.ParentHash, raw.ParentTotalWork, none,
                raw.Timestamp, raw.NumTransactions, raw.TransactionsMerkleRoot, raw.Nonce,
                raw.Graffiti, height, epoch.id, raw.SizeBytes, acc_work⟩
              match insertBlockRow store1 row with
              | none => ({ dag with store := store1 }, none, some .insertFailed)
              | some s2 =>
                match insertTxsLoop ctx blockHash 0 s2 raw.Transactions with
                | none => ({ dag with store := store1 }, none, some .insertFailed)
                | some s3 =>
                  match s3.GetLatestTip with
                  | none => ({ dag with store := s3 }, none, some .noBlocksFound)
                  | some curr_tip =>
                    let prev_tip := dag.FullTip
                    if prev_tip.hash ≠ curr_tip.hash then
                      ({ dag with store := s3, FullTip := curr_tip },
                       if dag.hasOnNewFullTip then some (curr_tip, prev_tip) else none,
                       none)
                    else ({ dag with store := s3 }, none, none)
          else ({ dag with store := store1 }, none, some .invalidPOW)

/-- Modelled from the spec: `Block.ToRawBlock` reconstructs the raw header
from a stored block row; the stored row carries no transaction list, so the
reconstructed body is empty.  The method lives outside the provided sources. -/
def ToRawBlock (b : BlockRow) : RawBlock :=
  ⟨b.parent_hash, b.parent_total_work, b.timestamp, b.num_transactions,
   b.transactions_merkle_root, b.nonce, b.graffiti, []⟩

/-- Source `IngestBlockBody`: look up the previously ingested header, rebuild
`raw` from it, and run the count, signature and merkle checks against
`raw.Transactions` — the reconstructed (empty) list; the supplied `body` is
assigned into `raw` only afterwards, for the size check and the insert loop. -/
def IngestBlockBody (ctx : Ctx) (dag : BlockDAG) (blockhash : Nat)
    (body : List RawTransaction) : BlockDAG × Option IngestError :=
  match dag.store.getBlockByHash blockhash with
  | none => (dag, some .headerMissing)
  | some block =>
    let raw := ToRawBlock block
    if raw.NumTransactions ≠ raw.Transactions.length then
      (dag, some .numTransactionsMismatch)
    else match verifyTxsLoop ctx 0 raw.Transactions with
    | some e => (dag, some e)
    | none =>
      if ctx.ComputeMerkleHash (raw.Transactions.map RawTransaction.Envelope)
          ≠ raw.TransactionsMerkleRoot then
        (dag, some .invalidMerkleRoot)
      else
        let raw2 := { raw with Transactions := body }
        if ctx.consensus.MaxBlockSizeBytes < raw2.SizeBytes then
          (dag, some .blockTooLarge)
        else match insertTxsLoop ctx blockhash 0 dag.store raw2.Transactions with
          | none => (dag, some .insertFailed)
          | some s2 => ({ dag with store := s2 }, none)

/-! ## State machine theorems -/

/-- When `Transition` fails, the transition-then-apply step reports the error
and leaves the state machine untouched. -/
theorem StateMachine.Step_error (c : StateMachine) (input : StateMachineInput)
    (e : SMError) (h : c.Transition input = .error e) :
    c.Step input = (c, some e) := by
  simp [StateMachine.Step, h]

/-- C1: For every transfer input with version 1, pairwise-distinct
from/to/miner pubkeys, no u64 overflow in to+amount, miner+fee or amount+fee,
and a sender balance of at least amount + fee, `Transition` succeeds, and
after `Apply` of its emitted leaves the sender's balance has decreased by
exactly the amount (not amount + fee), the recipient's has increased by
exactly the amount, and the miner's has increased by exactly the fee. -/
theorem transfer_transition_moves_amount_and_fee
    (c : StateMachine) (input : StateMachineInput)
    (hv : input.RawTransaction.Version = 1)
    (hcb : input.IsCoinbase = false)
    (hft : input.RawTransaction.FromPubkey ≠ input.RawTransaction.ToPubkey)
    (hfm : input.RawTransaction.FromPubkey ≠ input.MinerPubkey)
    (htm : input.RawTransaction.ToPubkey ≠ input.MinerPubkey)
    (hto : c.GetBalance input.RawTransaction.ToPubkey + input.RawTransaction.Amount < 2 ^ 64)
    (hmi : c.GetBalance input.MinerPubkey + input.RawTransaction.Fee < 2 ^ 64)
    (haf : input.RawTransaction.Amount + input.RawTransaction.Fee < 2 ^ 64)
    (hbal : input.RawTransaction.Amount + input.RawTransaction.Fee
      ≤ c.GetBalance input.RawTransaction.FromPubkey) :
    ∃ leaves, c.Transition input = .ok leaves ∧
      (c.Apply leaves).GetBalance input.RawTransaction.FromPubkey
          + input.RawTransaction.Amount
        = c.GetBalance input.RawTransaction.FromPubkey ∧
      (c.Apply leaves).GetBalance input.RawTransaction.ToPubkey
        = c.GetBalance input.RawTransaction.ToPubkey + input.RawTransaction.Amount ∧
      (c.Apply leaves).GetBalance input.MinerPubkey
        = c.GetBalance input.MinerPubkey + input.RawTransaction.Fee := by
  have hb : input.RawTransaction.Amount + input.RawTransaction.Fee
      ≤ c.state input.RawTransaction.FromPubkey := hbal
  refine ⟨[⟨input.RawTransaction.FromPubkey,
            c.GetBalance input.RawTransaction.FromPubkey - input.RawTransaction.Amount⟩,
           ⟨input.RawTransaction.ToPubkey,
            c.GetBalance input.RawTransaction.ToPubkey + input.RawTransaction.Amount⟩,
           ⟨input.MinerPubkey,
            c.GetBalance input.MinerPubkey + input.RawTransaction.Fee⟩], ?_, ?_, ?_, ?_⟩
  · have hT : c.Transition input = c.transitionTransfer input := by
      simp [StateMachine.Transition, hv, hcb]
    rw [hT]
    simp only [StateMachine.transitionTransfer]
    split_ifs with h1 h2 h3 h4
    · exact absurd h1 (by omega)
    · exact absurd h2 (by omega)
    · exact absurd h3 (by omega)
    · exact absurd h4 (by omega)
    · rfl
  · simp only [StateMachine.Apply, List.foldl, StateMachine.GetBalance]
    rw [if_neg hfm, if_neg hft]
    simp
    omega
  · simp only [StateMachine.Apply, List.foldl, StateMachine.GetBalance]
    rw [if_neg htm]
    simp
  · simp only [StateMachine.Apply, List.foldl, StateMachine.GetBalance]
    simp

/-- C2: For every transfer input with version 1, `Transition` returns
`ErrToBalanceOverflow` iff state[to] + amount overflows u64; otherwise
`ErrMinerBalanceOverflow` iff state[miner] + fee overflows; otherwise
`ErrAmountPlusFeeOverflow` iff amount + fee overflows; otherwise
`ErrInsufficientBalance` iff state[from] < amount + fee; and whenever
`Transition` returns an error the state map is unchanged. -/
theorem transfer_error_taxonomy
    (c : StateMachine) (input : StateMachineInput)
    (hv : input.RawTransaction.Version = 1)
    (hcb : input.IsCoinbase = false) :
    (c.Transition input = .error .ErrToBalanceOverflow ↔
      2 ^ 64 ≤ c.GetBalance input.RawTransaction.ToPubkey + input.RawTransaction.Amount)
  ∧ (c.Transition input = .error .ErrMinerBalanceOverflow ↔
      (c.GetBalance input.RawTransaction.ToPubkey + input.RawTransaction.Amount < 2 ^ 64 ∧
       2 ^ 64 ≤ c.GetBalance input.MinerPubkey + input.RawTransaction.Fee))
  ∧ (c.Transition input = .error .ErrAmountPlusFeeOverflow ↔
      (c.GetBalance input.RawTransaction.ToPubkey + input.RawTransaction.Amount < 2 ^ 64 ∧
       c.GetBalance input.MinerPubkey + input.RawTransaction.Fee < 2 ^ 64 ∧
       2 ^ 64 ≤ input.RawTransaction.Amount + input.RawTransaction.Fee))
  ∧ (c.Transition input = .error .ErrInsufficientBalance ↔
      (c.GetBalance input.RawTransaction.ToPubkey + input.RawTransaction.Amount < 2 ^ 64 ∧
       c.GetBalance input.MinerPubkey + input.RawTransaction.Fee < 2 ^ 64 ∧
       input.RawTransaction.Amount + input.RawTransaction.Fee < 2 ^ 64 ∧
       c.GetBalance input.RawTransaction.FromPubkey <
         input.RawTransaction.Amount + input.RawTransaction.Fee))
  ∧ (∀ e, c.Transition input = .error e → c.Step input = (c, some e)) := by
  have hT : c.Transition input = c.transitionTransfer input := by
    simp [StateMachine.Transition, hv, hcb]
  refine ⟨?_, ?_, ?_, ?_, fun e he => StateMachine.Step_error c input e he⟩ <;>
  · rw [hT]
    simp only [StateMachine.transitionTransfer]
    split_ifs with h1 h2 h3 h4 <;> simp_all

/-- C8: For every raw transaction, its hash is the double SHA-256 of its
envelope, the 155-byte concatenation of version, from, to, amount, fee and
nonce (big-endian integers, no signature); hence transactions differing only
in their signature hash identically. -/
theorem transaction_hash_ignores_signature
    (sha : Bytes → Bytes) (tx : RawTransaction) (s : Bytes)
    (hf : tx.FromPubkey.length = 65) (ht : tx.ToPubkey.length = 65) :
    RawTransaction.Hash sha { tx with Sig := s } = RawTransaction.Hash sha tx
  ∧ RawTransaction.Hash sha tx = sha (sha tx.Envelope)
  ∧ tx.Envelope = [tx.Version] ++ tx.FromPubkey ++ tx.ToPubkey ++
      putUint64 tx.Amount ++ putUint64 tx.Fee ++ putUint64 tx.Nonce
  ∧ tx.Envelope.length = 155 := by
  refine ⟨rfl, rfl, rfl, ?_⟩
  simp [RawTransaction.Envelope, putUint64, hf, ht]

/-- C10: For a self-transfer (FromPubkey = ToPubkey, both different from the
miner key) with prior balance b ≥ amount + fee and no overflow, `Transition`
emits the from-leaf (b - amount) before the to-leaf (b + amount), both
computed from the pre-state, so `Apply`'s in-order overwrite leaves the
account at b + amount: the self-transfer increases that balance by the amount,
the miner's by the fee, and every other balance is unchanged — total supply
grows by amount + fee. -/
theorem self_transfer_credits_amount
    (c : StateMachine) (input : StateMachineInput)
    (hv : input.RawTransaction.Version = 1)
    (hcb : input.IsCoinbase = false)
    (hst : input.RawTransaction.FromPubkey = input.RawTransaction.ToPubkey)
    (hfm : input.RawTransaction.FromPubkey ≠ input.MinerPubkey)
    (hto : c.GetBalance input.RawTransaction.ToPubkey + input.RawTransaction.Amount < 2 ^ 64)
    (hmi : c.GetBalance input.MinerPubkey + input.RawTransaction.Fee < 2 ^ 64)
    (haf : input.RawTransaction.Amount + input.RawTransaction.Fee < 2 ^ 64)
    (hbal : input.RawTransaction.Amount + input.RawTransaction.Fee
      ≤ c.GetBalance input.RawTransaction.FromPubkey) :
    c.Transition input = .ok
      [⟨input.RawTransaction.FromPubkey,
        c.GetBalance input.RawTransaction.FromPubkey - input.RawTransaction.Amount⟩,
       ⟨input.RawTransaction.ToPubkey,
        c.GetBalance input.RawTransaction.ToPubkey + input.RawTransaction.Amount⟩,
       ⟨input.MinerPubkey,
        c.GetBalance input.MinerPubkey + input.RawTransaction.Fee⟩]
  ∧ (c.Apply
      [⟨input.RawTransaction.FromPubkey,
        c.GetBalance input.RawTransaction.FromPubkey - input.RawTransaction.Amount⟩,
       ⟨input.RawTransaction.ToPubkey,
        c.GetBalance input.RawTransaction.ToPubkey + input.RawTransaction.Amount⟩,
       ⟨input.MinerPubkey,
        c.GetBalance input.MinerPubkey + input.RawTransaction.Fee⟩]).GetBalance
      input.RawTransaction.FromPubkey
    = c.GetBalance input.RawTransaction.FromPubkey + input.RawTransaction.Amount
  ∧ (c.Apply
      [⟨input.RawTransaction.FromPubkey,
        c.GetBalance input.RawTransaction.FromPubkey - input.RawTransaction.Amount⟩,
       ⟨input.RawTransaction.ToPubkey,
        c.GetBalance input.RawTransaction.ToPubkey + input.RawTransaction.Amount⟩,
       ⟨input.MinerPubkey,
        c.GetBalance input.MinerPubkey + input.RawTransaction.Fee⟩]).GetBalance
      input.MinerPubkey
    = c.GetBalance input.MinerPubkey + input.RawTransaction.Fee
  ∧ ∀ p, p ≠ input.RawTransaction.FromPubkey → p ≠ input.MinerPubkey →
      (c.Apply
        [⟨input.RawTransaction.FromPubkey,
          c.GetBalance input.RawTransaction.FromPubkey - input.RawTransaction.Amount⟩,
         ⟨input.RawTransaction.ToPubkey,
          c.GetBalance input.RawTransaction.ToPubkey + input.RawTransaction.Amount⟩,
         ⟨input.MinerPubkey,
          c.GetBalance input.MinerPubkey + input.RawTransaction.Fee⟩]).GetBalance p
      = c.GetBalance p := by
  refine ⟨?_, ?_, ?_, ?_⟩
  · have hT : c.Transition input = c.transitionTransfer input := by
      simp [StateMachine.Transition, hv, hcb]
    rw [hT]
    simp only [StateMachine.transitionTransfer]
    split_ifs with h1 h2 h3 h4
    · exact absurd h1 (by omega)
    · exact absurd h2 (by omega)
    · exact absurd h3 (by omega)
    · exact absurd h4 (by omega)
    · rfl
  · simp only [StateMachine.Apply, List.foldl, StateMachine.GetBalance]
    rw [if_neg hfm, if_pos hst, hst]
  · simp only [StateMachine.Apply, List.foldl, StateMachine.GetBalance]
    simp
  · intro p hpf hpm
    simp only [StateMachine.Apply, List.foldl, StateMachine.GetBalance]
    rw [if_neg hpm, if_neg (hst ▸ hpf), if_neg hpf]

/-- A concrete state machine for witnesses: account [1] holds 100 coins. -/
def cW : StateMachine := ⟨fun k => if k = [1] then 100 else 0⟩

/-- A concrete transfer: 30 coins from [1] to [2], fee 5. -/
def txW : RawTransaction := ⟨1, List.replicate 64 0, [1], [2], 30, 5, 0⟩

/-- The concrete transfer input with miner [3]. -/
def inputW : StateMachineInput := ⟨txW, false, [3]⟩

/-- A concrete self-transfer input: 30 coins from [1] to [1], fee 5,
miner [3]. -/
def inputWself : StateMachineInput := ⟨⟨1, List.replicate 64 0, [1], [1], 30, 5, 0⟩, false, [3]⟩

/-- A concrete transaction with 65-byte pubkeys. -/
def txW65 : RawTransaction :=
  ⟨1, List.replicate 64 0, List.replicate 65 1, List.replicate 65 2, 30, 5, 7⟩

/-- Witness for C1 at the concrete transfer. -/
theorem transfer_transition_moves_amount_and_fee_witness :
    inputW.RawTransaction.Version = 1 ∧ inputW.IsCoinbase = false ∧
    inputW.RawTransaction.FromPubkey ≠ inputW.RawTransaction.ToPubkey ∧
    inputW.RawTransaction.FromPubkey ≠ inputW.MinerPubkey ∧
    inputW.RawTransaction.ToPubkey ≠ inputW.MinerPubkey ∧
    cW.GetBalance inputW.RawTransaction.ToPubkey + inputW.RawTransaction.Amount < 2 ^ 64 ∧
    cW.GetBalance inputW.MinerPubkey + inputW.RawTransaction.Fee < 2 ^ 64 ∧
    inputW.RawTransaction.Amount + inputW.RawTransaction.Fee < 2 ^ 64 ∧
    inputW.RawTransaction.Amount + inputW.RawTransaction.Fee
      ≤ cW.GetBalance inputW.RawTransaction.FromPubkey ∧
    (∃ leaves, cW.Transition inputW = .ok leaves ∧
      (cW.Apply leaves).GetBalance inputW.RawTransaction.FromPubkey
          + inputW.RawTransaction.Amount
        = cW.GetBalance inputW.RawTransaction.FromPubkey ∧
      (cW.Apply leaves).GetBalance inputW.RawTransaction.ToPubkey
        = cW.GetBalance inputW.RawTransaction.ToPubkey + inputW.RawTransaction.Amount ∧
      (cW.Apply leaves).GetBalance inputW.MinerPubkey
        = cW.GetBalance inputW.MinerPubkey + inputW.RawTransaction.Fee) :=
  ⟨by decide, by decide, by decide, by decide, by decide, by decide, by decide,
   by decide, by decide,
   transfer_transition_moves_amount_and_fee cW inputW (by decide) (by decide)
     (by decide) (by decide) (by decide) (by decide) (by decide) (by decide) (by decide)⟩

/-- Witness for C2 at the concrete transfer. -/
theorem transfer_error_taxonomy_witness :
    inputW.RawTransaction.Version = 1 ∧ inputW.IsCoinbase = false ∧
    ((cW.Transition inputW = .error .ErrToBalanceOverflow ↔
      2 ^ 64 ≤ cW.GetBalance inputW.RawTransaction.ToPubkey + inputW.RawTransaction.Amount)
    ∧ (cW.Transition inputW = .error .ErrMinerBalanceOverflow ↔
      (cW.GetBalance inputW.RawTransaction.ToPubkey + inputW.RawTransaction.Amount < 2 ^ 64 ∧
       2 ^ 64 ≤ cW.GetBalance inputW.MinerPubkey + inputW.RawTransaction.Fee))
    ∧ (cW.Transition inputW = .error .ErrAmountPlusFeeOverflow ↔
      (cW.GetBalance inputW.RawTransaction.ToPubkey + inputW.RawTransaction.Amount < 2 ^ 64 ∧
       cW.GetBalance inputW.MinerPubkey + inputW.RawTransaction.Fee < 2 ^ 64 ∧
       2 ^ 64 ≤ inputW.RawTransaction.Amount + inputW.RawTransaction.Fee))
    ∧ (cW.Transition inputW = .error .ErrInsufficientBalance ↔
      (cW.GetBalance inputW.RawTransaction.ToPubkey + inputW.RawTransaction.Amount < 2 ^ 64 ∧
       cW.GetBalance inputW.MinerPubkey + inputW.RawTransaction.Fee < 2 ^ 64 ∧
       inputW.RawTransaction.Amount + inputW.RawTransaction.Fee < 2 ^ 64 ∧
       cW.GetBalance inputW.RawTransaction.FromPubkey <
         inputW.RawTransaction.Amount + inputW.RawTransaction.Fee))
    ∧ (∀ e, cW.Transition inputW = .error e → cW.Step inputW = (cW, some e))) :=
  ⟨by decide, by decide, transfer_error_taxonomy cW inputW (by decide) (by decide)⟩

/-- Witness for C8 at a concrete transaction with the identity in place of
SHA-256. -/
theorem transaction_hash_ignores_signature_witness :
    txW65.FromPubkey.length = 65 ∧ txW65.ToPubkey.length = 65 ∧
    (RawTransaction.Hash (fun b => b) { txW65 with Sig := List.replicate 64 9 }
        = RawTransaction.Hash (fun b => b) txW65
    ∧ RawTransaction.Hash (fun b => b) txW65 = (fun b => b) ((fun b => b) txW65.Envelope)
    ∧ txW65.Envelope = [txW65.Version] ++ txW65.FromPubkey ++ txW65.ToPubkey ++
        putUint64 txW65.Amount ++ putUint64 txW65.Fee ++ putUint64 txW65.Nonce
    ∧ txW65.Envelope.length = 155) :=
  ⟨by decide, by decide,
   transaction_hash_ignores_signature (fun b => b) txW65 (List.replicate 64 9)
     (by decide) (by decide)⟩

/-- Witness for C10 at the concrete self-transfer. -/
theorem self_transfer_credits_amount_witness :
    inputWself.RawTransaction.Version = 1 ∧ inputWself.IsCoinbase = false ∧
    inputWself.RawTransaction.FromPubkey = inputWself.RawTransaction.ToPubkey ∧
    inputWself.RawTransaction.FromPubkey ≠ inputWself.MinerPubkey ∧
    cW.GetBalance inputWself.RawTransaction.ToPubkey + inputWself.RawTransaction.Amount < 2 ^ 64 ∧
    cW.GetBalance inputWself.MinerPubkey + inputWself.RawTransaction.Fee < 2 ^ 64 ∧
    inputWself.RawTransaction.Amount + inputWself.RawTransaction.Fee < 2 ^ 64 ∧
    inputWself.RawTransaction.Amount + inputWself.RawTransaction.Fee
      ≤ cW.GetBalance inputWself.RawTransaction.FromPubkey ∧
    (cW.Transition inputWself = .ok
      [⟨inputWself.RawTransaction.FromPubkey,
        cW.GetBalance inputWself.RawTransaction.FromPubkey - inputWself.RawTransaction.Amount⟩,
       ⟨inputWself.RawTransaction.ToPubkey,
        cW.GetBalance inputWself.RawTransaction.ToPubkey + inputWself.RawTransaction.Amount⟩,
       ⟨inputWself.MinerPubkey,
        cW.GetBalance inputWself.MinerPubkey + inputWself.RawTransaction.Fee⟩]
    ∧ (cW.Apply
        [⟨inputWself.RawTransaction.FromPubkey,
          cW.GetBalance inputWself.RawTransaction.FromPubkey - inputWself.RawTransaction.Amount⟩,
         ⟨inputWself.RawTransaction.ToPubkey,
          cW.GetBalance inputWself.RawTransaction.ToPubkey + inputWself.RawTransaction.Amount⟩,
         ⟨inputWself.MinerPubkey,
          cW.GetBalance inputWself.MinerPubkey + inputWself.RawTransaction.Fee⟩]).GetBalance
        inputWself.RawTransaction.FromPubkey
      = cW.GetBalance inputWself.RawTransaction.FromPubkey + inputWself.RawTransaction.Amount
    ∧ (cW.Apply
        [⟨inputWself.RawTransaction.FromPubkey,
          cW.GetBalance inputWself.RawTransaction.FromPubkey - inputWself.RawTransaction.Amount⟩,
         ⟨inputWself.RawTransaction.ToPubkey,
          cW.GetBalance inputWself.RawTransaction.ToPubkey + inputWself.RawTransaction.Amount⟩,
         ⟨inputWself.MinerPubkey,
          cW.GetBalance inputWself.MinerPubkey + inputWself.RawTransaction.Fee⟩]).GetBalance
        inputWself.MinerPubkey
      = cW.GetBalance inputWself.MinerPubkey + inputWself.RawTransaction.Fee
    ∧ ∀ p, p ≠ inputWself.RawTransaction.FromPubkey → p ≠ inputWself.MinerPubkey →
        (cW.Apply
          [⟨inputWself.RawTransaction.FromPubkey,
            cW.GetBalance inputWself.RawTransaction.FromPubkey - inputWself.RawTransaction.Amount⟩,
           ⟨inputWself.RawTransaction.ToPubkey,
            cW.GetBalance inputWself.RawTransaction.ToPubkey + inputWself.RawTransaction.Amount⟩,
           ⟨inputWself.MinerPubkey,
            cW.GetBalance inputWself.MinerPubkey + inputWself.RawTransaction.Fee⟩]).GetBalance p
        = cW.GetBalance p) :=
  ⟨by decide, by decide, by decide, by decide, by decide, by decide, by decide, by decide,
   self_transfer_credits_amount cW inputWself (by decide) (by decide) (by decide)
     (by decide) (by decide) (by decide) (by decide) (by decide)⟩

/-! ## Chain replay determinism -/

/-- Buffer writes at two rows commute when the rows are equal or target
distinct indices. -/
theorem writeRow_comm (count : Nat) (x y : TxJoinRow)
    (hxy : x = y ∨ x.txindex ≠ y.txindex) (z : Option (List Transaction)) :
    writeRow count (writeRow count z x) y = writeRow count (writeRow count z y) x := by
  rcases hxy with rfl | hne
  · rfl
  · cases z with
    | none => rfl
    | some l =>
      by_cases hx : x.txindex < count <;> by_cases hy : y.txindex < count <;>
        simp [writeRow, hx, hy, List.set_comm _ _ _ hne]

/-- The assembled buffer does not depend on the order in which the backend
returns the rows, as long as their `txindex` values are pairwise distinct. -/
theorem buildTxs_perm (count : Nat) (rows1 rows2 : List TxJoinRow)
    (hperm : rows1.Perm rows2)
    (hdist : rows1.Pairwise (fun a b => a.txindex ≠ b.txindex)) :
    buildTxs count rows1 = buildTxs count rows2 := by
  refine hperm.foldl_eq' (fun x hx y hy z => ?_) _
  by_cases hexy : x = y
  · subst hexy; rfl
  · exact writeRow_comm count x y
      (Or.inr (hdist.forall (fun a b h => h.symm) hx hy hexy)) z

/-- `GetBlockTransactions` is row-order independent under distinct
`txindex` values. -/
theorem GetBlockTransactions_perm (rows1 rows2 : List TxJoinRow)
    (hperm : rows1.Perm rows2)
    (hdist : rows1.Pairwise (fun a b => a.txindex ≠ b.txindex)) :
    GetBlockTransactions rows1 = GetBlockTransactions rows2 := by
  unfold GetBlockTransactions
  rw [hperm.length_eq]
  exact buildTxs_perm rows2.length rows1 rows2 hperm hdist

/-- C9: `RebuildState` is deterministic: over the same DAG contents (two row
listings of each block that are permutations of one another, i.e. the same
stored rows returned in any order, with intact pairwise-distinct transaction
indices) and the same chain hash list, two runs from the same starting state
produce equal balance maps, or the same error at the same block and
transaction index. -/
theorem rebuild_state_deterministic (ord1 ord2 : Nat → List TxJoinRow)
    (c : StateMachine) (hashes : List Nat)
    (hperm : ∀ bh, (ord1 bh).Perm (ord2 bh))
    (hdist : ∀ bh, (ord1 bh).Pairwise (fun a b => a.txindex ≠ b.txindex)) :
    RebuildState ord1 c hashes = RebuildState ord2 c hashes := by
  induction hashes generalizing c with
  | nil => rfl
  | cons bh rest ih =>
    simp only [RebuildState]
    rw [GetBlockTransactions_perm (ord1 bh) (ord2 bh) (hperm bh) (hdist bh)]
    cases GetBlockTransactions (ord2 bh) with
    | none => rfl
    | some txs =>
      dsimp only
      cases replayTxs bh c (List.replicate 65 0) 0 txs with
      | error e => rfl
      | ok c' => exact ih c'

/-- A concrete coinbase join row at index 0. -/
def rowW0 : TxJoinRow := ⟨[10], List.replicate 64 0, [1], [2], 20, 0, 0, 0, 1⟩

/-- A concrete transfer join row at index 1. -/
def rowW1 : TxJoinRow := ⟨[11], List.replicate 64 0, [2], [3], 5, 1, 0, 1, 1⟩

/-- One backend row order: index 0 first. -/
def ordW1 : Nat → List TxJoinRow := fun _ => [rowW0, rowW1]

/-- The opposite backend row order: index 1 first. -/
def ordW2 : Nat → List TxJoinRow := fun _ => [rowW1, rowW0]

/-- The empty state machine. -/
def cEmpty : StateMachine := ⟨fun _ => 0⟩

/-- Witness for C9: the two concrete row orders replay to the same result
from the empty state. -/
theorem rebuild_state_deterministic_witness :
    (∀ bh, (ordW1 bh).Perm (ordW2 bh)) ∧
    (∀ bh, (ordW1 bh).Pairwise (fun a b => a.txindex ≠ b.txindex)) ∧
    RebuildState ordW1 cEmpty [5] = RebuildState ordW2 cEmpty [5] :=
  ⟨fun bh => by simp only [ordW1, ordW2]; decide,
   fun bh => by simp only [ordW1]; decide,
   rebuild_state_deterministic ordW1 ordW2 cEmpty [5]
     (fun bh => by simp only [ordW1, ordW2]; decide)
     (fun bh => by simp only [ordW1]; decide)⟩

/-! ## Block DAG helper lemmas -/

/-- A successful epoch step leaves the blocks, transactions and
transactions-blocks tables untouched, and appends at most the one epoch row
it returns. -/
theorem epochStep_ok (ctx : Ctx) (s : Store) (raw : RawBlock) (height : Nat)
    (e : EpochRow) (s1 : Store) (h : epochStep ctx s raw height = .ok (e, s1)) :
    s1.blocks = s.blocks ∧ s1.transactions = s.transactions ∧
    s1.transactions_blocks = s.transactions_blocks ∧
    (s1.epochs = s.epochs ∨ s1.epochs = s.epochs ++ [e]) := by
  unfold epochStep at h
  split at h
  · split at h
    · exact absurd h (by simp)
    · rename_i prevEpoch hpe
      dsimp only at h
      split at h
      · exact absurd h (by simp)
      · rename_i s1' hins
        injection h with h'
        injection h' with he hs
        subst hs
        unfold insertEpochRow at hins
        split at hins
        · exact absurd hins (by simp)
        · injection hins with hs1
          subst hs1
          exact ⟨rfl, rfl, rfl, Or.inr (by rw [he])⟩
  · split at h
    · exact absurd h (by simp)
    · injection h with h'
      injection h' with he hs
      subst hs
      exact ⟨rfl, rfl, rfl, Or.inl rfl⟩

/-- On an epoch boundary, a successful epoch step returns exactly the
recomputed epoch row and appends it to the epochs table. -/
theorem epochStep_boundary (ctx : Ctx) (s : Store) (raw : RawBlock) (height : Nat)
    (prevEpoch : EpochRow)
    (hb : height % ctx.consensus.EpochLengthBlocks = 0)
    (hpe : s.GetEpochForBlockHash raw.ParentHash = some prevEpoch)
    (e : EpochRow) (s1 : Store) (h : epochStep ctx s raw height = .ok (e, s1)) :
    e = ⟨(height, ctx.blockHash raw), ctx.blockHash raw, raw.Timestamp, height,
         RecomputeDifficulty prevEpoch.start_time raw.Timestamp prevEpoch.difficulty
           ctx.consensus.TargetEpochLengthMillis ctx.consensus.EpochLengthBlocks height⟩ ∧
    s1.epochs = s.epochs ++ [e] := by
  unfold epochStep at h
  rw [if_pos hb, hpe] at h
  dsimp only at h
  split at h
  · exact absurd h (by simp)
  · rename_i s1' hins
    injection h with h'
    injection h' with he hs
    subst hs
    unfold insertEpochRow at hins
    split at hins
    · exact absurd hins (by simp)
    · injection hins with hs1
      subst hs1
      exact ⟨he.symm, by rw [he]⟩

/-- Off an epoch boundary, a successful epoch step returns the parent's
epoch and leaves the store untouched. -/
theorem epochStep_nonboundary (ctx : Ctx) (s : Store) (raw : RawBlock) (height : Nat)
    (prevEpoch : EpochRow)
    (hb : ¬ height % ctx.consensus.EpochLengthBlocks = 0)
    (hpe : s.GetEpochForBlockHash raw.ParentHash = some prevEpoch)
    (e : EpochRow) (s1 : Store) (h : epochStep ctx s raw height = .ok (e, s1)) :
    e = prevEpoch ∧ s1 = s := by
  unfold epochStep at h
  rw [if_neg hb, hpe] at h
  injection h with h'
  injection h' with he hs
  exact ⟨he.symm, hs.symm⟩

/-- A successful block-row insert appends the row, leaves the other tables
untouched, and makes the row retrievable by its hash. -/
theorem insertBlockRow_some (s : Store) (b : BlockRow) (s' : Store)
    (h : insertBlockRow s b = some s') :
    s'.blocks = s.blocks ++ [b] ∧ s'.epochs = s.epochs ∧
    s'.transactions = s.transactions ∧
    s'.transactions_blocks = s.transactions_blocks ∧
    s'.getBlockByHash b.hash = some b := by
  unfold insertBlockRow at h
  split at h
  · exact absurd h (by simp)
  · rename_i hany
    injection h with hs
    subst hs
    refine ⟨rfl, rfl, rfl, rfl, ?_⟩
    unfold Store.getBlockByHash
    dsimp only
    rw [List.find?_append]
    have hnone : s.blocks.find? (fun x => x.hash == b.hash) = none := by
      rw [List.find?_eq_none]
      intro x hx hpx
      exact hany (List.any_eq_true.mpr ⟨x, hx, hpx⟩)
    rw [hnone]
    simp [List.find?]

/-- The per-transaction insert loop leaves the blocks, epochs and
transactions tables untouched whenever it succeeds. -/
theorem insertTxsLoop_some (ctx : Ctx) (blockhash : Nat) :
    ∀ (txs : List RawTransaction) (i : Nat) (s s' : Store),
      insertTxsLoop ctx blockhash i s txs = some s' →
      s'.blocks = s.blocks ∧ s'.epochs = s.epochs ∧ s'.transactions = s.transactions := by
  intro txs
  induction txs with
  | nil =>
    intro i s s' h
    injection h with hs
    subst hs
    exact ⟨rfl, rfl, rfl⟩
  | cons tx rest ih =>
    intro i s s' h
    unfold insertTxsLoop at h
    dsimp only at h
    split at h
    · exact absurd h (by simp)
    · rename_i s1 hins
      split at h
      · have := ih (i + 1) s1 s' h
        unfold insertTxBlockRow at hins
        split at hins
        · exact absurd hins (by simp)
        · injection hins with hs1
          subst hs1
          exact this
      · split at h
        · exact absurd h (by simp)
        · rename_i s2 hins2
          exact absurd hins2 (by simp [insertTransactionRow])

/-- The first-max characterization of the heaviest-row scan: starting the
scan at `m`, the result is the first row of `m :: l` whose accumulated work
no later row exceeds. -/
theorem pickTip_go (l : List BlockRow) (m : BlockRow) :
    ∃ l₁ b l₂, m :: l = l₁ ++ b :: l₂ ∧ l.foldl pickTip (some m) = some b ∧
      (∀ x ∈ l₁, x.acc_work < b.acc_work) ∧ (∀ x ∈ l₂, x.acc_work ≤ b.acc_work) := by
  induction l generalizing m with
  | nil => exact ⟨[], m, [], rfl, rfl, by simp, by simp⟩
  | cons a t ih =>
    by_cases h : m.acc_work < a.acc_work
    · obtain ⟨l₁, b, l₂, heq, hfold, hlt, hle⟩ := ih a
      have hfold' : (a :: t).foldl pickTip (some m) = some b := by
        rw [List.foldl_cons]
        show t.foldl pickTip (if m.acc_work < a.acc_work then some a else some m) = some b
        rw [if_pos h]
        exact hfold
      have hab : a.acc_work ≤ b.acc_work := by
        cases l₁ with
        | nil =>
          rw [List.nil_append] at heq
          injection heq with h1 h2
          rw [h1]
        | cons y l₁' =>
          rw [List.cons_append] at heq
          injection heq with h1 h2
          have hyb := hlt y (List.mem_cons_self y l₁')
          rw [← h1] at hyb
          exact le_of_lt hyb
      refine ⟨m :: l₁, b, l₂, ?_, hfold', ?_, hle⟩
      · rw [List.cons_append, ← heq]
      · intro x hx
        rcases List.mem_cons.mp hx with rfl | hx'
        · exact lt_of_lt_of_le h hab
        · exact hlt x hx'
    · obtain ⟨l₁, b, l₂, heq, hfold, hlt, hle⟩ := ih m
      have hfold' : (a :: t).foldl pickTip (some m) = some b := by
        rw [List.foldl_cons]
        show t.foldl pickTip (if m.acc_work < a.acc_work then some a else some m) = some b
        rw [if_neg h]
        exact hfold
      cases l₁ with
      | nil =>
        rw [List.nil_append] at heq
        injection heq with h1 h2
        refine ⟨[], b, a :: l₂, ?_, hfold', by simp, ?_⟩
        · rw [List.nil_append, ← h1, ← h2]
        · intro x hx
          rcases List.mem_cons.mp hx with rfl | hx'
          · rw [← h1]
            exact Nat.le_of_not_lt h
          · exact hle x hx'
      | cons y l₁' =>
        rw [List.cons_append] at heq
        injection heq with h1 h2
        have hmb : m.acc_work < b.acc_work := by
          have hyb := hlt y (List.mem_cons_self y l₁')
          rw [← h1] at hyb
          exact hyb
        refine ⟨m :: a :: l₁', b, l₂, ?_, hfold', ?_, hle⟩
        · rw [h2]
          simp
        · intro x hx
          rcases List.mem_cons.mp hx with rfl | hx2
          · exact hmb
          · rcases List.mem_cons.mp hx2 with rfl | hx3
            · exact lt_of_le_of_lt (Nat.le_of_not_lt h) hmb
            · exact hlt x (List.mem_cons_of_mem y hx3)

/-- The heaviest-tip query returns the first-inserted row of maximal
accumulated work. -/
theorem GetLatestTip_first_heaviest (s : Store) (hne : s.blocks ≠ []) :
    ∃ l₁ b l₂, s.blocks = l₁ ++ b :: l₂ ∧ s.GetLatestTip = some b ∧
      (∀ x ∈ l₁, x.acc_work < b.acc_work) ∧ (∀ x ∈ l₂, x.acc_work ≤ b.acc_work) := by
  cases hb : s.blocks with
  | nil => exact absurd hb hne
  | cons m t =>
    obtain ⟨l₁, b, l₂, heq, hfold, hlt, hle⟩ := pickTip_go t m
    refine ⟨l₁, b, l₂, heq, ?_, hlt, hle⟩
    unfold Store.GetLatestTip
    rw [hb, List.foldl_cons]
    show t.foldl pickTip (some m) = some b
    exact hfold

/-- The heaviest-tip query only comes back empty on an empty blocks table. -/
theorem GetLatestTip_none (s : Store) (h : s.GetLatestTip = none) : s.blocks = [] := by
  cases hb : s.blocks with
  | nil => rfl
  | cons m t =>
    obtain ⟨l₁, b, l₂, _, hfold, _, _⟩ := pickTip_go t m
    unfold Store.GetLatestTip at h
    rw [hb, List.foldl_cons] at h
    have : List.foldl pickTip (some m) t = none := h
    rw [hfold] at this
    exact absurd this (by simp)

/-- The full characterization of `IngestBlock`: either it fails — reporting
an error, firing no callback, leaving the tip fields and the blocks,
transactions and transactions-blocks tables untouched, with at most the one
boundary epoch row added — or it succeeds, in which case the parent was
found, the block's `parent_total_work` matches the parent's stored
accumulated work, the epoch step ran, the block row was inserted with
height `parent.height + 1` and accumulated work
`parent.acc_work + CalculateWork(hash)` inside the store transaction along
with the per-transaction rows, and the tip was recomputed, updating
`FullTip` and firing the callback exactly when the tip hash changed. -/
theorem IngestBlock_spec (ctx : Ctx) (dag : BlockDAG) (raw : RawBlock)
    (dag' : BlockDAG) (ev : Option (BlockRow × BlockRow)) (err : Option IngestError)
    (h : IngestBlock ctx dag raw = (dag', ev, err)) :
    (err ≠ none ∧ ev = none ∧ dag'.FullTip = dag.FullTip ∧
     dag'.hasOnNewFullTip = dag.hasOnNewFullTip ∧
     dag'.store.blocks = dag.store.blocks ∧
     dag'.store.transactions = dag.store.transactions ∧
     dag'.store.transactions_blocks = dag.store.transactions_blocks ∧
     (dag'.store.epochs = dag.store.epochs ∨
      ∃ e, dag'.store.epochs = dag.store.epochs ++ [e]))
  ∨ (err = none ∧ ∃ parent epoch store1 s2 s3 curr_tip,
      dag.store.getBlockByHash raw.ParentHash = some parent ∧
      raw.ParentTotalWork = parent.acc_work ∧
      epochStep ctx dag.store raw (parent.height + 1) = .ok (epoch, store1) ∧
      insertBlockRow store1
        ⟨ctx.blockHash raw, raw.ParentHash, raw.ParentTotalWork, none, raw.Timestamp,
         raw.NumTransactions, raw.TransactionsMerkleRoot, raw.Nonce, raw.Graffiti,
         parent.height + 1, epoch.id, raw.SizeBytes,
         parent.acc_work + CalculateWork (ctx.blockHash raw)⟩ = some s2 ∧
      insertTxsLoop ctx (ctx.blockHash raw) 0 s2 raw.Transactions = some s3 ∧
      dag'.store = s3 ∧
      s3.GetLatestTip = some curr_tip ∧
      dag'.hasOnNewFullTip = dag.hasOnNewFullTip ∧
      (if dag.FullTip.hash ≠ curr_tip.hash
        then dag'.FullTip = curr_tip ∧
          ev = (if dag.hasOnNewFullTip then some (curr_tip, dag.FullTip) else none)
        else dag'.FullTip = dag.FullTip ∧ ev = none)) := by
  unfold IngestBlock at h
  split at h
  · rw [Prod.mk.injEq, Prod.mk.injEq] at h
    obtain ⟨h1, h2, h3⟩ := h
    subst h1; subst h2; subst h3
    exact Or.inl ⟨by simp, rfl, rfl, rfl, rfl, rfl, rfl, Or.inl rfl⟩
  · rename_i parentBlock hpar
    split at h
    · rw [Prod.mk.injEq, Prod.mk.injEq] at h
      obtain ⟨h1, h2, h3⟩ := h
      subst h1; subst h2; subst h3
      exact Or.inl ⟨by simp, rfl, rfl, rfl, rfl, rfl, rfl, Or.inl rfl⟩
    · split at h
      · rw [Prod.mk.injEq, Prod.mk.injEq] at h
        obtain ⟨h1, h2, h3⟩ := h
        subst h1; subst h2; subst h3
        exact Or.inl ⟨by simp, rfl, rfl, rfl, rfl, rfl, rfl, Or.inl rfl⟩
      · split at h
        · rw [Prod.mk.injEq, Prod.mk.injEq] at h
          obtain ⟨h1, h2, h3⟩ := h
          subst h1; subst h2; subst h3
          exact Or.inl ⟨by simp, rfl, rfl, rfl, rfl, rfl, rfl, Or.inl rfl⟩
        · split at h
          · -- parent-total-work mismatch: only error endpoints remain
            dsimp only at h
            split at h
            · rw [Prod.mk.injEq, Prod.mk.injEq] at h
              obtain ⟨h1, h2, h3⟩ := h
              subst h1; subst h2; subst h3
              exact Or.inl ⟨by simp, rfl, rfl, rfl, rfl, rfl, rfl, Or.inl rfl⟩
            · rename_i epoch store1 heps
              obtain ⟨hb1, ht1, htb1, hep1⟩ :=
                epochStep_ok ctx dag.store raw (parentBlock.height + 1) epoch store1 heps
              split at h
              · rw [Prod.mk.injEq, Prod.mk.injEq] at h
                obtain ⟨h1, h2, h3⟩ := h
                subst h1; subst h2; subst h3
                exact Or.inl ⟨by simp, rfl, rfl, rfl, hb1, ht1, htb1,
                  hep1.imp (fun he => he) (fun he => ⟨epoch, he⟩)⟩
              · rw [Prod.mk.injEq, Prod.mk.injEq] at h
                obtain ⟨h1, h2, h3⟩ := h
                subst h1; subst h2; subst h3
                exact Or.inl ⟨by simp, rfl, rfl, rfl, hb1, ht1, htb1,
                  hep1.imp (fun he => he) (fun he => ⟨epoch, he⟩)⟩
          · -- parent total work matches
            rename_i hptw
            dsimp only at h
            split at h
            · rw [Prod.mk.injEq, Prod.mk.injEq] at h
              obtain ⟨h1, h2, h3⟩ := h
              subst h1; subst h2; subst h3
              exact Or.inl ⟨by simp, rfl, rfl, rfl, rfl, rfl, rfl, Or.inl rfl⟩
            · rename_i epoch store1 heps
              obtain ⟨hb1, ht1, htb1, hep1⟩ :=
                epochStep_ok ctx dag.store raw (parentBlock.height + 1) epoch store1 heps
              split at h
              · -- POW valid
                split at h
                · -- block too large
                  rw [Prod.mk.injEq, Prod.mk.injEq] at h
                  obtain ⟨h1, h2, h3⟩ := h
                  subst h1; subst h2; subst h3
                  exact Or.inl ⟨by simp, rfl, rfl, rfl, hb1, ht1, htb1,
                    hep1.imp (fun he => he) (fun he => ⟨epoch, he⟩)⟩
                · split at h
                  · -- block insert failed
                    rw [Prod.mk.injEq, Prod.mk.injEq] at h
                    obtain ⟨h1, h2, h3⟩ := h
                    subst h1; subst h2; subst h3
                    exact Or.inl ⟨by simp, rfl, rfl, rfl, hb1, ht1, htb1,
                      hep1.imp (fun he => he) (fun he => ⟨epoch, he⟩)⟩
                  · rename_i s2 hins2
                    split at h
                    · -- transaction insert failed
                      rw [Prod.mk.injEq, Prod.mk.injEq] at h
                      obtain ⟨h1, h2, h3⟩ := h
                      subst h1; subst h2; subst h3
                      exact Or.inl ⟨by simp, rfl, rfl, rfl, hb1, ht1, htb1,
                        hep1.imp (fun he => he) (fun he => ⟨epoch, he⟩)⟩
                    · rename_i s3 hins3
                      split at h
                      · -- GetLatestTip none: impossible, the table is nonempty
                        rename_i htipnone
                        obtain ⟨hbA, _, _, _, _⟩ := insertBlockRow_some store1 _ s2 hins2
                        obtain ⟨hbB, _, _⟩ :=
                          insertTxsLoop_some ctx _ raw.Transactions 0 s2 s3 hins3
                        have hemp : s3.blocks = [] := GetLatestTip_none s3 htipnone
                        rw [hbB, hbA] at hemp
                        exact absurd hemp (by simp)
                      · rename_i curr_tip htip
                        split at h
                        · rename_i hchanged
                          rw [Prod.mk.injEq, Prod.mk.injEq] at h
                          obtain ⟨h1, h2, h3⟩ := h
                          subst h1; subst h2; subst h3
                          refine Or.inr ⟨rfl, parentBlock, epoch, store1, s2, s3, curr_tip,
                            hpar, not_ne_iff.mp hptw, heps, hins2, hins3, rfl, htip, rfl, ?_⟩
                          rw [if_pos hchanged]
                          exact ⟨rfl, rfl⟩
                        · rename_i hsame
                          rw [Prod.mk.injEq, Prod.mk.injEq] at h
                          obtain ⟨h1, h2, h3⟩ := h
                          subst h1; subst h2; subst h3
                          refine Or.inr ⟨rfl, parentBlock, epoch, store1, s2, s3, curr_tip,
                            hpar, not_ne_iff.mp hptw, heps, hins2, hins3, rfl, htip, rfl, ?_⟩
                          rw [if_neg hsame]
                          exact ⟨rfl, rfl⟩
              · -- POW invalid
                rw [Prod.mk.injEq, Prod.mk.injEq] at h
                obtain ⟨h1, h2, h3⟩ := h
                subst h1; subst h2; subst h3
                exact Or.inl ⟨by simp, rfl, rfl, rfl, hb1, ht1, htb1,
                  hep1.imp (fun he => he) (fun he => ⟨epoch, he⟩)⟩

/-- The full characterization of `IngestHeader`: either it fails, leaving
the tip fields and the blocks, transactions and transactions-blocks tables
untouched with at most one boundary epoch row added, or it succeeds,
inserting the header row with `size_bytes = 0`, height `parent.height + 1`
and accumulated work `parent.acc_work + CalculateWork(hash)` after the
parent-total-work check passed.  The headers tip is not recomputed. -/
theorem IngestHeader_spec (ctx : Ctx) (dag : BlockDAG) (raw : RawBlock)
    (dag' : BlockDAG) (err : Option IngestError)
    (h : IngestHeader ctx dag raw = (dag', err)) :
    (err ≠ none ∧ dag'.FullTip = dag.FullTip ∧
     dag'.hasOnNewFullTip = dag.hasOnNewFullTip ∧
     dag'.store.blocks = dag.store.blocks ∧
     dag'.store.transactions = dag.store.transactions ∧
     dag'.store.transactions_blocks = dag.store.transactions_blocks ∧
     (dag'.store.epochs = dag.store.epochs ∨
      ∃ e, dag'.store.epochs = dag.store.epochs ++ [e]))
  ∨ (err = none ∧ ∃ parent epoch store1 s2,
      dag.store.getBlockByHash raw.ParentHash = some parent ∧
      raw.ParentTotalWork = parent.acc_work ∧
      epochStep ctx dag.store raw (parent.height + 1) = .ok (epoch, store1) ∧
      insertBlockRow store1
        ⟨ctx.blockHash raw, raw.ParentHash, raw.ParentTotalWork, none, raw.Timestamp,
         raw.NumTransactions, raw.TransactionsMerkleRoot, raw.Nonce, raw.Graffiti,
         parent.height + 1, epoch.id, 0,
         parent.acc_work + CalculateWork (ctx.blockHash raw)⟩ = some s2 ∧
      dag'.store = s2 ∧ dag'.FullTip = dag.FullTip ∧
      dag'.hasOnNewFullTip = dag.hasOnNewFullTip) := by
  unfold IngestHeader at h
  split at h
  · rw [Prod.mk.injEq] at h
    obtain ⟨h1, h2⟩ := h
    subst h1; subst h2
    exact Or.inl ⟨by simp, rfl, rfl, rfl, rfl, rfl, Or.inl rfl⟩
  · rename_i parentBlock hpar
    dsimp only at h
    split at h
    · rw [Prod.mk.injEq] at h
      obtain ⟨h1, h2⟩ := h
      subst h1; subst h2
      exact Or.inl ⟨by simp, rfl, rfl, rfl, rfl, rfl, Or.inl rfl⟩
    · rename_i epoch store1 heps
      obtain ⟨hb1, ht1, htb1, hep1⟩ :=
        epochStep_ok ctx dag.store raw (parentBlock.height + 1) epoch store1 heps
      split at h
      · -- POW valid
        split at h
        · -- parent total work mismatch
          rw [Prod.mk.injEq] at h
          obtain ⟨h1, h2⟩ := h
          subst h1; subst h2
          exact Or.inl ⟨by simp, rfl, rfl, hb1, ht1, htb1,
            hep1.imp (fun he => he) (fun he => ⟨epoch, he⟩)⟩
        · rename_i hptw
          split at h
          · -- insert failed
            rw [Prod.mk.injEq] at h
            obtain ⟨h1, h2⟩ := h
            subst h1; subst h2
            exact Or.inl ⟨by simp, rfl, rfl, hb1, ht1, htb1,
              hep1.imp (fun he => he) (fun he => ⟨epoch, he⟩)⟩
          · rename_i s2 hins2
            rw [Prod.mk.injEq] at h
            obtain ⟨h1, h2⟩ := h
            subst h1; subst h2
            exact Or.inr ⟨rfl, parentBlock, epoch, store1, s2, hpar,
              not_ne_iff.mp hptw, heps, hins2, rfl, rfl, rfl⟩
      · -- POW invalid
        rw [Prod.mk.injEq] at h
        obtain ⟨h1, h2⟩ := h
        subst h1; subst h2
        exact Or.inl ⟨by simp, rfl, rfl, hb1, ht1, htb1,
          hep1.imp (fun he => he) (fun he => ⟨epoch, he⟩)⟩

/-- Looking a block up by hash only reads the blocks table. -/
theorem getBlockByHash_congr (s s' : Store) (h : s'.blocks = s.blocks) (x : Nat) :
    s'.getBlockByHash x = s.getBlockByHash x := by
  unfold Store.getBlockByHash
  rw [h]

/-! ## Concrete DAG scenarios -/

/-- A concrete context: one-block epochs, 1 ms target epoch length, genesis
difficulty 10, huge size limit; the external functions are a nonce-valued
block hash, the identity for SHA-256, always-true verifiers, and an
all-zero merkle root. -/
def ctxT : Ctx :=
  ⟨⟨1, 1, 10, 1000000⟩, fun rb => rb.Nonce, fun b => b, fun _ _ _ => true, fun _ => true,
   fun _ => 0⟩

/-- The genesis epoch row of the concrete store. -/
def epoch0Row : EpochRow := ⟨(0, 100), 100, 0, 0, 10⟩

/-- The genesis block row of the concrete store (hash 100, accumulated
work 5). -/
def genesisRowT : BlockRow := ⟨100, 0, 0, some 10, 0, 0, 0, 0, 0, 0, (0, 100), 0, 5⟩

/-- The concrete store: the genesis block and its epoch. -/
def storeT : Store := ⟨[genesisRowT], [epoch0Row], [], []⟩

/-- The concrete DAG over `storeT`, with a registered tip callback. -/
def dagT : BlockDAG := ⟨storeT, genesisRowT, true⟩

/-- An empty child of the genesis that passes every check (nonce 3, correct
parent total work 5). -/
def rawOK : RawBlock := ⟨100, 5, 5, 0, 0, 3, 0, []⟩

/-- The same child with nonce 999: fails POW against the retargeted
difficulty 50. -/
def rawPOWfail : RawBlock := ⟨100, 5, 5, 0, 0, 999, 0, []⟩

/-- The same child claiming parent total work 6 instead of 5. -/
def rawPTWfail : RawBlock := ⟨100, 6, 5, 0, 0, 3, 0, []⟩

/-- A stored header (hash 200) with `num_transactions = 1`, awaiting its
body. -/
def headerRowB : BlockRow := ⟨200, 100, 5, none, 7, 1, 77, 4, 0, 1, (0, 100), 395, 9⟩

/-- The concrete DAG holding the genesis and the pending header. -/
def dagB : BlockDAG := ⟨⟨[genesisRowT, headerRowB], [epoch0Row], [], []⟩, genesisRowT, false⟩

/-! ## Claim theorems over the DAG -/

/-- C3 (counterexample): at an epoch boundary, a block that fails POW
verification still leaves the freshly inserted epoch row behind: the
ingestion reports an error, yet the store differs from the original by the
new epoch row — the epoch insert does not commit in the same store
transaction as the rest. -/
theorem ingest_error_persists_epoch_row :
    (IngestBlock ctxT dagT rawPOWfail).2.2 = some .invalidPOW ∧
    (IngestBlock ctxT dagT rawPOWfail).1.store ≠ dagT.store ∧
    (IngestBlock ctxT dagT rawPOWfail).1.store.epochs
      = dagT.store.epochs ++ [⟨(1, 999), 999, 5, 1, 50⟩] := by decide

/-- C3 (amended): for `IngestBlock` and `IngestHeader`, the block row, the
per-transaction rows and the transactions-blocks rows do commit in one store
transaction — on any failure none of them persist — but the epoch row at an
epoch boundary is inserted by a standalone statement before the
POW/parent-work/size checks and may persist even when the ingestion fails. -/
theorem ingest_rollback_excludes_epoch_row (ctx : Ctx) (dag : BlockDAG) (raw : RawBlock) :
    (∀ dag' ev err, IngestBlock ctx dag raw = (dag', ev, err) → err ≠ none →
      dag'.store.blocks = dag.store.blocks ∧
      dag'.store.transactions = dag.store.transactions ∧
      dag'.store.transactions_blocks = dag.store.transactions_blocks ∧
      (dag'.store.epochs = dag.store.epochs ∨
       ∃ e, dag'.store.epochs = dag.store.epochs ++ [e]))
  ∧ (∀ dag' err, IngestHeader ctx dag raw = (dag', err) → err ≠ none →
      dag'.store.blocks = dag.store.blocks ∧
      dag'.store.transactions = dag.store.transactions ∧
      dag'.store.transactions_blocks = dag.store.transactions_blocks ∧
      (dag'.store.epochs = dag.store.epochs ∨
       ∃ e, dag'.store.epochs = dag.store.epochs ++ [e])) := by
  constructor
  · intro dag' ev err h herr
    rcases IngestBlock_spec ctx dag raw dag' ev err h with
      ⟨_, _, _, _, hb, ht, htb, hep⟩ | ⟨hnone, _⟩
    · exact ⟨hb, ht, htb, hep⟩
    · exact absurd hnone herr
  · intro dag' err h herr
    rcases IngestHeader_spec ctx dag raw dag' err h with
      ⟨_, _, _, hb, ht, htb, hep⟩ | ⟨hnone, _⟩
    · exact ⟨hb, ht, htb, hep⟩
    · exact absurd hnone herr

/-- Witness for the amended C3 at the failing POW ingestion. -/
theorem ingest_rollback_excludes_epoch_row_witness :
    (IngestBlock ctxT dagT rawPOWfail).2.2 ≠ none ∧
    ((IngestBlock ctxT dagT rawPOWfail).1.store.blocks = dagT.store.blocks ∧
     (IngestBlock ctxT dagT rawPOWfail).1.store.transactions = dagT.store.transactions ∧
     (IngestBlock ctxT dagT rawPOWfail).1.store.transactions_blocks
       = dagT.store.transactions_blocks ∧
     ((IngestBlock ctxT dagT rawPOWfail).1.store.epochs = dagT.store.epochs ∨
      ∃ e, (IngestBlock ctxT dagT rawPOWfail).1.store.epochs = dagT.store.epochs ++ [e])) :=
  ⟨by decide,
   (ingest_rollback_excludes_epoch_row ctxT dagT rawPOWfail).1
     (IngestBlock ctxT dagT rawPOWfail).1 (IngestBlock ctxT dagT rawPOWfail).2.1
     (IngestBlock ctxT dagT rawPOWfail).2.2 rfl (by decide)⟩

/-- C5 (counterexample): a block whose `parent_total_work` differs from the
parent's stored accumulated work is rejected, but at an epoch boundary the
rejection is not "inserting nothing": the new epoch row persists. -/
theorem ingest_reject_inserts_epoch_row :
    (IngestBlock ctxT dagT rawPTWfail).2.2 = some .invalidParentTotalWork ∧
    (IngestBlock ctxT dagT rawPTWfail).1.store ≠ dagT.store ∧
    (IngestBlock ctxT dagT rawPTWfail).1.store.epochs
      = dagT.store.epochs ++ [⟨(1, 3), 3, 5, 1, 50⟩] := by decide

/-- C5 (amended): every block accepted by `IngestBlock` is stored with
height `parent.height + 1` and accumulated work
`parent.acc_work + CalculateWork(hash)`, and its `parent_total_work`, read
as a 256-bit big-endian integer, equals the parent's stored accumulated
work; a block whose `parent_total_work` mismatches is rejected with no
block, transaction or transaction-block row inserted (though at an epoch
boundary the already-inserted epoch row persists). -/
theorem ingest_block_height_work_invariants (ctx : Ctx) (dag : BlockDAG) (raw : RawBlock) :
    (∀ dag' ev, IngestBlock ctx dag raw = (dag', ev, none) →
      ∃ parent row, dag.store.getBlockByHash raw.ParentHash = some parent ∧
        raw.ParentTotalWork = parent.acc_work ∧
        dag'.store.getBlockByHash (ctx.blockHash raw) = some row ∧
        row.height = parent.height + 1 ∧
        row.acc_work = parent.acc_work + CalculateWork (ctx.blockHash raw))
  ∧ (∀ parent, dag.store.getBlockByHash raw.ParentHash = some parent →
      raw.ParentTotalWork ≠ parent.acc_work →
      ∀ dag' ev err, IngestBlock ctx dag raw = (dag', ev, err) →
        err ≠ none ∧ dag'.store.blocks = dag.store.blocks ∧
        dag'.store.transactions = dag.store.transactions ∧
        dag'.store.transactions_blocks = dag.store.transactions_blocks) := by
  constructor
  · intro dag' ev h
    rcases IngestBlock_spec ctx dag raw dag' ev none h with
      ⟨hbad, _⟩ | ⟨_, parent, epoch, store1, s2, s3, curr_tip,
        hpar, hptw, heps, hins2, hins3, hstore, _, _, _⟩
    · exact absurd rfl hbad
    · obtain ⟨hb2, _, _, _, hfind⟩ := insertBlockRow_some store1 _ s2 hins2
      obtain ⟨hb3, _, _⟩ := insertTxsLoop_some ctx _ raw.Transactions 0 s2 s3 hins3
      refine ⟨parent,
        ⟨ctx.blockHash raw, raw.ParentHash, raw.ParentTotalWork, none, raw.Timestamp,
         raw.NumTransactions, raw.TransactionsMerkleRoot, raw.Nonce, raw.Graffiti,
         parent.height + 1, epoch.id, raw.SizeBytes,
         parent.acc_work + CalculateWork (ctx.blockHash raw)⟩,
        hpar, hptw, ?_, rfl, rfl⟩
      rw [hstore, getBlockByHash_congr s2 s3 hb3]
      exact hfind
  · intro parent hpar hne dag' ev err h
    rcases IngestBlock_spec ctx dag raw dag' ev err h with
      ⟨herr, _, _, _, hb, ht, htb, _⟩ | ⟨_, parent2, epoch, store1, s2, s3, curr_tip,
        hpar2, hptw, _⟩
    · exact ⟨herr, hb, ht, htb⟩
    · rw [hpar] at hpar2
      injection hpar2 with hpp
      rw [← hpp] at hptw
      exact absurd hptw hne

/-- Witness for the amended C5 at the accepted concrete block. -/
theorem ingest_block_height_work_invariants_witness :
    IngestBlock ctxT dagT rawOK
      = ((IngestBlock ctxT dagT rawOK).1, (IngestBlock ctxT dagT rawOK).2.1, none) ∧
    (∃ parent row, dagT.store.getBlockByHash rawOK.ParentHash = some parent ∧
      rawOK.ParentTotalWork = parent.acc_work ∧
      (IngestBlock ctxT dagT rawOK).1.store.getBlockByHash (ctxT.blockHash rawOK) = some row ∧
      row.height = parent.height + 1 ∧
      row.acc_work = parent.acc_work + CalculateWork (ctxT.blockHash rawOK)) :=
  ⟨by decide,
   (ingest_block_height_work_invariants ctxT dagT rawOK).1
     (IngestBlock ctxT dagT rawOK).1 (IngestBlock ctxT dagT rawOK).2.1 (by decide)⟩

/-- C6: a block ingested by `IngestBlock` or `IngestHeader` at height
`h = parent.height + 1` creates a new epoch row iff
`h % EpochLengthBlocks = 0`; the new epoch records the block's hash as its
start block hash, the block's timestamp as its start time, `h` as its start
height, and difficulty
`previous.difficulty * (timestamp - previous.start_time) / TargetEpochLengthMillis`
(integer division); at any other height no epoch row is created and the
block is assigned its parent's epoch. -/
theorem epoch_creation_iff_boundary (ctx : Ctx) (dag : BlockDAG) (raw : RawBlock)
    (parent : BlockRow) (prevEpoch : EpochRow)
    (hpar : dag.store.getBlockByHash raw.ParentHash = some parent)
    (hpe : dag.store.GetEpochForBlockHash raw.ParentHash = some prevEpoch)
    (ht : prevEpoch.start_time < raw.Timestamp) :
    (∀ dag' ev, IngestBlock ctx dag raw = (dag', ev, none) →
      ∃ row, dag'.store.getBlockByHash (ctx.blockHash raw) = some row ∧
        (if (parent.height + 1) % ctx.consensus.EpochLengthBlocks = 0 then
          dag'.store.epochs = dag.store.epochs ++
            [⟨(parent.height + 1, ctx.blockHash raw), ctx.blockHash raw, raw.Timestamp,
              parent.height + 1,
              prevEpoch.difficulty * (raw.Timestamp - prevEpoch.start_time) /
                ctx.consensus.TargetEpochLengthMillis⟩] ∧
          row.epoch = (parent.height + 1, ctx.blockHash raw)
        else dag'.store.epochs = dag.store.epochs ∧ row.epoch = prevEpoch.id))
  ∧ (∀ dag', IngestHeader ctx dag raw = (dag', none) →
      ∃ row, dag'.store.getBlockByHash (ctx.blockHash raw) = some row ∧
        (if (parent.height + 1) % ctx.consensus.EpochLengthBlocks = 0 then
          dag'.store.epochs = dag.store.epochs ++
            [⟨(parent.height + 1, ctx.blockHash raw), ctx.blockHash raw, raw.Timestamp,
              parent.height + 1,
              prevEpoch.difficulty * (raw.Timestamp - prevEpoch.start_time) /
                ctx.consensus.TargetEpochLengthMillis⟩] ∧
          row.epoch = (parent.height + 1, ctx.blockHash raw)
        else dag'.store.epochs = dag.store.epochs ∧ row.epoch = prevEpoch.id)) := by
  have hdiff : RecomputeDifficulty prevEpoch.start_time raw.Timestamp prevEpoch.difficulty
      ctx.consensus.TargetEpochLengthMillis ctx.consensus.EpochLengthBlocks
      (parent.height + 1)
      = prevEpoch.difficulty * (raw.Timestamp - prevEpoch.start_time) /
        ctx.consensus.TargetEpochLengthMillis := by
    unfold RecomputeDifficulty
    rw [Nat.max_eq_left (by omega)]
  constructor
  · intro dag' ev h
    rcases IngestBlock_spec ctx dag raw dag' ev none h with
      ⟨hbad, _⟩ | ⟨_, parent2, epoch, store1, s2, s3, curr_tip,
        hpar2, hptw, heps, hins2, hins3, hstore, _, _, _⟩
    · exact absurd rfl hbad
    · rw [hpar] at hpar2
      injection hpar2 with hpp
      rw [← hpp] at heps hins2
      obtain ⟨hb2, hep2, _, _, hfind⟩ := insertBlockRow_some store1 _ s2 hins2
      obtain ⟨hb3, hep3, _⟩ := insertTxsLoop_some ctx _ raw.Transactions 0 s2 s3 hins3
      refine ⟨⟨ctx.blockHash raw, raw.ParentHash, raw.ParentTotalWork, none, raw.Timestamp,
         raw.NumTransactions, raw.TransactionsMerkleRoot, raw.Nonce, raw.Graffiti,
         parent.height + 1, epoch.id, raw.SizeBytes,
         parent.acc_work + CalculateWork (ctx.blockHash raw)⟩, ?_, ?_⟩
      · rw [hstore, getBlockByHash_congr s2 s3 hb3]
        exact hfind
      · by_cases hb : (parent.height + 1) % ctx.consensus.EpochLengthBlocks = 0
        · rw [if_pos hb]
          obtain ⟨heqe, hepochs⟩ := epochStep_boundary ctx dag.store raw (parent.height + 1)
            prevEpoch hb hpe epoch store1 heps
          constructor
          · rw [hstore, hep3, hep2, hepochs, heqe, hdiff]
          · rw [heqe]
        · rw [if_neg hb]
          obtain ⟨heqe, hs1⟩ := epochStep_nonboundary ctx dag.store raw (parent.height + 1)
            prevEpoch hb hpe epoch store1 heps
          constructor
          · rw [hstore, hep3, hep2, hs1]
          · rw [heqe]
  · intro dag' h
    rcases IngestHeader_spec ctx dag raw dag' none h with
      ⟨hbad, _⟩ | ⟨_, parent2, epoch, store1, s2,
        hpar2, hptw, heps, hins2, hstore, _, _⟩
    · exact absurd rfl hbad
    · rw [hpar] at hpar2
      injection hpar2 with hpp
      rw [← hpp] at heps hins2
      obtain ⟨hb2, hep2, _, _, hfind⟩ := insertBlockRow_some store1 _ s2 hins2
      refine ⟨⟨ctx.blockHash raw, raw.ParentHash, raw.ParentTotalWork, none, raw.Timestamp,
         raw.NumTransactions, raw.TransactionsMerkleRoot, raw.Nonce, raw.Graffiti,
         parent.height + 1, epoch.id, 0,
         parent.acc_work + CalculateWork (ctx.blockHash raw)⟩, ?_, ?_⟩
      · rw [hstore]
        exact hfind
      · by_cases hb : (parent.height + 1) % ctx.consensus.EpochLengthBlocks = 0
        · rw [if_pos hb]
          obtain ⟨heqe, hepochs⟩ := epochStep_boundary ctx dag.store raw (parent.height + 1)
            prevEpoch hb hpe epoch store1 heps
          constructor
          · rw [hstore, hep2, hepochs, heqe, hdiff]
          · rw [heqe]
        · rw [if_neg hb]
          obtain ⟨heqe, hs1⟩ := epochStep_nonboundary ctx dag.store raw (parent.height + 1)
            prevEpoch hb hpe epoch store1 heps
          constructor
          · rw [hstore, hep2, hs1]
          · rw [heqe]

/-- Witness for C6 at the accepted concrete block (an epoch boundary:
every height is one under `EpochLengthBlocks = 1`). -/
theorem epoch_creation_iff_boundary_witness :
    dagT.store.getBlockByHash rawOK.ParentHash = some genesisRowT ∧
    dagT.store.GetEpochForBlockHash rawOK.ParentHash = some epoch0Row ∧
    epoch0Row.start_time < rawOK.Timestamp ∧
    (∀ dag' ev, IngestBlock ctxT dagT rawOK = (dag', ev, none) →
      ∃ row, dag'.store.getBlockByHash (ctxT.blockHash rawOK) = some row ∧
        (if (genesisRowT.height + 1) % ctxT.consensus.EpochLengthBlocks = 0 then
          dag'.store.epochs = dagT.store.epochs ++
            [⟨(genesisRowT.height + 1, ctxT.blockHash rawOK), ctxT.blockHash rawOK,
              rawOK.Timestamp, genesisRowT.height + 1,
              epoch0Row.difficulty * (rawOK.Timestamp - epoch0Row.start_time) /
                ctxT.consensus.TargetEpochLengthMillis⟩] ∧
          row.epoch = (genesisRowT.height + 1, ctxT.blockHash rawOK)
        else dag'.store.epochs = dagT.store.epochs ∧ row.epoch = epoch0Row.id)) :=
  ⟨by decide, by decide, by decide,
   (epoch_creation_iff_boundary ctxT dagT rawOK genesisRowT epoch0Row
     (by decide) (by decide) (by decide)).1⟩

/-- C7: for every non-empty store, `GetLatestTip` returns the block of
maximal accumulated work, with ties broken in favor of the first-inserted
row; and after every successful `IngestBlock` the DAG's `FullTip` is that
heaviest block (left in place when the tip hash is unchanged), with the
`OnNewFullTip` callback invoked with `(new, prev)` exactly when the tip
hash changed and a callback is registered. -/
theorem full_tip_heaviest (ctx : Ctx) (dag : BlockDAG) (raw : RawBlock)
    (s : Store) (hne : s.blocks ≠ []) :
    (∃ l₁ b l₂, s.blocks = l₁ ++ b :: l₂ ∧ s.GetLatestTip = some b ∧
      (∀ x ∈ l₁, x.acc_work < b.acc_work) ∧ (∀ x ∈ l₂, x.acc_work ≤ b.acc_work))
  ∧ (∀ dag' ev, IngestBlock ctx dag raw = (dag', ev, none) →
      ∃ curr, dag'.store.GetLatestTip = some curr ∧
        (if dag.FullTip.hash ≠ curr.hash
          then dag'.FullTip = curr ∧
            ev = (if dag.hasOnNewFullTip then some (curr, dag.FullTip) else none)
          else dag'.FullTip = dag.FullTip ∧ ev = none)) := by
  refine ⟨GetLatestTip_first_heaviest s hne, ?_⟩
  intro dag' ev h
  rcases IngestBlock_spec ctx dag raw dag' ev none h with
    ⟨hbad, _⟩ | ⟨_, parent, epoch, store1, s2, s3, curr_tip,
      _, _, _, _, _, hstore, htip, _, htipif⟩
  · exact absurd rfl hbad
  · refine ⟨curr_tip, ?_, htipif⟩
    rw [hstore]
    exact htip

/-- Witness for C7 at the concrete store and the accepted concrete block. -/
theorem full_tip_heaviest_witness :
    storeT.blocks ≠ [] ∧
    ((∃ l₁ b l₂, storeT.blocks = l₁ ++ b :: l₂ ∧ storeT.GetLatestTip = some b ∧
        (∀ x ∈ l₁, x.acc_work < b.acc_work) ∧ (∀ x ∈ l₂, x.acc_work ≤ b.acc_work))
    ∧ (∀ dag' ev, IngestBlock ctxT dagT rawOK = (dag', ev, none) →
        ∃ curr, dag'.store.GetLatestTip = some curr ∧
          (if dagT.FullTip.hash ≠ curr.hash
            then dag'.FullTip = curr ∧
              ev = (if dagT.hasOnNewFullTip then some (curr, dagT.FullTip) else none)
            else dag'.FullTip = dagT.FullTip ∧ ev = none))) :=
  ⟨by decide, full_tip_heaviest ctxT dagT rawOK storeT (by decide)⟩

/-- C4: `IngestBlockBody` runs its transaction-count, signature and
merkle-root checks against the transaction list reconstructed from the
stored header — which is empty — not against the supplied body: a stored
header with `num_transactions = 1` and a matching one-transaction body is
rejected with the count-mismatch error instead of being verified. -/
theorem ingest_block_body_ignores_supplied_body :
    (dagB.store.getBlockByHash 200).map (fun b => b.num_transactions) = some 1 ∧
    ([txW65] : List RawTransaction).length = 1 ∧
    IngestBlockBody ctxT dagB 200 [txW65] = (dagB, some .numTransactionsMismatch) := by
  decide

end Tinychain
